import Mathlib

/-!
Shallow embedding of the Tuyau API types generator
(src/packages/core/src/codegen/api_types_generator.ts).

The generator inspects a route table and a source-file index, synthesizes
type names from route patterns, folds routes into a nested definition tree,
builds a named-routes array, and emits one generated source file.

JavaScript strings are modelled as Lean String (lists of Char); machine
integers do not occur.  External collaborators (the AdonisJS string helper,
matchit pattern parser, node:path, ts-morph AST) are modelled as small pure
functions, each marked in its doc comment.
-/

namespace Tuyau

/-! ### Basic string utilities (ASCII, mirroring the JS semantics used) -/

/-- Splitting a character list on a separator character, mirroring the
semantics of the JavaScript idiom of splitting a string on a one-character
separator: an empty input yields one empty group. -/
def splitChar (sep : Char) : List Char → List (List Char)
  | [] => [[]]
  | c :: cs =>
    if c = sep then [] :: splitChar sep cs
    else
      match splitChar sep cs with
      | [] => [[c]]
      | g :: gs => (c :: g) :: gs

/-- Boolean prefix test on character lists. -/
def isPrefixList : List Char → List Char → Bool
  | [], _ => true
  | _ :: _, [] => false
  | a :: as, b :: bs => a = b && isPrefixList as bs

/-- Boolean substring test: does the second list occur contiguously in the
first?  Models the JavaScript includes test on strings. -/
def containsSub (sub : List Char) : List Char → Bool
  | [] => isPrefixList sub []
  | c :: rest => isPrefixList sub (c :: rest) || containsSub sub rest

/-- String-level substring test. -/
def strIncludes (s sub : String) : Bool :=
  containsSub sub.data s.data

/-- Boolean suffix test on strings, modelling the JavaScript endsWith. -/
def strEndsWith (s suffix : String) : Bool :=
  isPrefixList suffix.data.reverse s.data.reverse

/-- ASCII lower-casing of one character, modelling JavaScript toLowerCase
on the ASCII alphabet (the only characters HTTP verbs use). -/
def asciiLower (c : Char) : Char :=
  if 'A' ≤ c ∧ c ≤ 'Z' then Char.ofNat (c.toNat + 32) else c

/-- ASCII upper-casing of one character. -/
def asciiUpper (c : Char) : Char :=
  if 'a' ≤ c ∧ c ≤ 'z' then Char.ofNat (c.toNat - 32) else c

/-- ASCII lower-casing of a string. -/
def toLowerStr (s : String) : String :=
  String.mk (s.data.map asciiLower)

/-- Joining a list of strings with a separator, modelling the JavaScript
array join. -/
def joinWith (sep : String) : List String → String
  | [] => ""
  | [x] => x
  | x :: y :: rest => x ++ sep ++ joinWith sep (y :: rest)

/-- Capitalizing one word: first character upper-cased, remainder
lower-cased. -/
def capitalizeChars : List Char → List Char
  | [] => []
  | c :: cs => asciiUpper c :: cs.map asciiLower

/-- Modelled from the spec: the external AdonisJS string helper converting a
space-separated word list to PascalCase (each word capitalized, then
concatenated); the helper itself is a dependency, not part of this
repository. -/
def pascalCase (s : String) : String :=
  String.mk (List.flatten (((splitChar ' ' s.data).filter (fun w => w ≠ [])).map capitalizeChars))

/-! ### The route data model -/

/-- A route handler: either an inline function value or a string reference
to a controller module and method, mirroring the handler field of
RouteJSON. -/
inductive Handler where
  | func : Handler
  | reference : String → Handler
deriving DecidableEq, Repr

/-- A route as consumed by the generator: pattern, HTTP methods, handler,
optional name (RouteJSON). -/
structure Route where
  pattern : String
  methods : List String
  handler : Handler
  name : Option String
deriving DecidableEq, Repr

/-! ### Route filtering (private method filterRoutes) -/

/-- One entry of an only/except list: an exact string or a regular
expression; the regular expression is modelled by its match predicate on
the route pattern. -/
inductive FilterEntry where
  | str : String → FilterEntry
  | regex : (String → Bool) → FilterEntry

/-- A per-mode filter: either a predicate function on routes or a list of
only/except entries, mirroring the config shapes accepted by the code. -/
inductive FilterSpec where
  | func : (Route → Bool) → FilterSpec
  | list : List FilterEntry → FilterSpec

/-- Configuration of one codegen mode, with optional only and except. -/
structure ModeConfig where
  only : Option FilterSpec
  except : Option FilterSpec

/-- The codegen section of the Tuyau config: one optional filter per mode. -/
structure CodegenConfig where
  definitions : Option ModeConfig
  routes : Option ModeConfig

/-- The two filtering modes accepted by filterRoutes. -/
inductive Mode where
  | definitions : Mode
  | routes : Mode
deriving DecidableEq, Repr

/-- Looking up the mode entry of the optional codegen config, modelling the
optional-chaining access in the source. -/
def modeConfig (cfg : Option CodegenConfig) : Mode → Option ModeConfig
  | Mode.definitions => cfg.bind (fun c => c.definitions)
  | Mode.routes => cfg.bind (fun c => c.routes)

/-- Matching one only/except entry against a route pattern: a regular
expression matches through its predicate; an exact entry matches by string
equality (in the source a string-to-RegExp comparison is always false, so
only the equality test remains for string entries). -/
def matchesEntry (pattern : String) : FilterEntry → Bool
  | FilterEntry.regex t => t pattern
  | FilterEntry.str s => pattern = s

/-- The per-route keep decision of filterRoutes, mirroring the checks in
source order: only-function, except-function, only-list, except-list,
default true. -/
def routeKept (c : ModeConfig) (route : Route) : Bool :=
  match c.only with
  | some (FilterSpec.func f) => f route
  | _ =>
    match c.except with
    | some (FilterSpec.func f) => !(f route)
    | _ =>
      match c.only with
      | some (FilterSpec.list l) => l.any (matchesEntry route.pattern)
      | _ =>
        match c.except with
        | some (FilterSpec.list l) => !(l.any (matchesEntry route.pattern))
        | _ => true

/-- filterRoutes: returns the input unchanged when the mode has no config
or the config has neither only nor except; otherwise filters each route by
the keep decision. -/
def filterRoutes (cfg : Option CodegenConfig) (routes : List Route) (mode : Mode) : List Route :=
  match modeConfig cfg mode with
  | none => routes
  | some c =>
    match c.only, c.except with
    | none, none => routes
    | _, _ => routes.filter (routeKept c)

/-! ### Type-name synthesis (private method generateTypeName) -/

/-- Pattern segmentation: split on the slash and drop empty segments,
mirroring the split-filter(Boolean) idiom of the source. -/
def patternSegments (pattern : String) : List String :=
  ((splitChar '/' pattern.data).filter (fun s => s ≠ [])).map String.mk

/-- Remapping one segment for type naming: a segment beginning with the
parameter sigil becomes the literal id. -/
def remapSegment (seg : String) : String :=
  match seg.data with
  | ':' :: _ => "id"
  | _ => seg

/-- generateTypeName: PascalCase of the remapped, space-joined segments
concatenated with PascalCase of the space-joined method list. -/
def generateTypeName (route : Route) : String :=
  let remappedSegments := joinWith " " ((patternSegments route.pattern).map remapSegment)
  pascalCase remappedSegments ++ pascalCase (joinWith " " route.methods)

/-! ### Source index and AST model (ts-morph collaborators) -/

/-- A syntax-tree node, modelling the ts-morph node shapes the generator
inspects: a call expression carries the text of its callee expression, its
argument nodes and its other children; an identifier carries its text and
the source-file paths of its resolved implementations; every other node
kind is collapsed into a plain node with children. -/
inductive TsNode where
  | callExpression : String → List TsNode → List TsNode → TsNode
  | identifier : String → List String → TsNode
  | plain : List TsNode → TsNode
deriving Repr

/-- A method declaration of a controller class: its name and optional
body. -/
structure MethodDecl where
  name : String
  body : Option TsNode
deriving Repr

/-- A class declaration: default-export flag and methods. -/
structure ClassDecl where
  isDefaultExport : Bool
  methods : List MethodDecl
deriving Repr

/-- A source file of the project index: path and class declarations. -/
structure SourceFile where
  filePath : String
  classes : List ClassDecl
deriving Repr

/-- HandlerData as in the source: the resolved method declaration and its
body. -/
structure HandlerData where
  method : MethodDecl
  body : TsNode
deriving Repr

/-- The result of the AdonisJS parseBindingReference helper for a string
binding, modelled from its documented behavior: the module part and the
method part (the text after the last dot, defaulting to handle). -/
structure RouteReferenceParsed where
  moduleNameOrPath : String
  method : String
deriving DecidableEq, Repr

/-- Modelled from the spec: the external parseBindingReference helper
splitting a handler reference string into module and method at the last
dot. -/
def parseBindingReference (ref : String) : RouteReferenceParsed :=
  match (splitChar '.' ref.data).map String.mk with
  | [] => ⟨ref, "handle"⟩
  | [_] => ⟨ref, "handle"⟩
  | parts => ⟨joinWith "." parts.dropLast, parts.getLastD "handle"⟩

/-- Replacing the first occurrence of the hash character, modelling the
JavaScript replace of a string pattern (first occurrence only). -/
def replaceFirstHash (s : String) : String :=
  match (splitChar '#' s.data).map String.mk with
  | [] => s
  | [x] => x
  | x :: y :: rest => x ++ joinWith "#" (y :: rest)

/-- extractClassHandlerData: the default-exported class of the file, then
the named method, then its body; undefined at any missing step. -/
def extractClassHandlerData (file : SourceFile) (routeHandler : RouteReferenceParsed) :
    Option HandlerData :=
  match file.classes.find? (fun c => c.isDefaultExport) with
  | none => none
  | some classDef =>
    match classDef.methods.find? (fun m => m.name = routeHandler.method) with
    | none => none
    | some method =>
      match method.body with
      | none => none
      | some body => some ⟨method, body⟩

/-! ### Request schema extraction (private method extractRequest) -/

mutual

/-- First call expression, in document (pre-order) order, whose callee text
contains validateUsing; the search over a node includes the node itself. -/
def findCall : TsNode → Option TsNode
  | TsNode.callExpression callee args kids =>
    if strIncludes callee "validateUsing" then some (TsNode.callExpression callee args kids)
    else
      match findCallList args with
      | some c => some c
      | none => findCallList kids
  | TsNode.identifier _ _ => none
  | TsNode.plain kids => findCallList kids

/-- Pre-order search over a node list for the validateUsing call. -/
def findCallList : List TsNode → Option TsNode
  | [] => none
  | n :: rest =>
    match findCall n with
    | some c => some c
    | none => findCallList rest

end

/-- forEachDescendant over the method declaration: its descendants are the
body subtree. -/
def findValidateUsingInMethod (m : MethodDecl) : Option TsNode :=
  match m.body with
  | none => none
  | some b => findCall b

/-- Dropping the longest common prefix of two segment lists, a helper for
the relative-path model. -/
def dropCommonParts : List String → List String → List String × List String
  | a :: as, b :: bs => if a = b then dropCommonParts as bs else (a :: as, b :: bs)
  | as, bs => (as, bs)

/-- Modelled from the spec: the node path helper computing the path of the
second argument relative to the first directory (POSIX, pre-normalized
absolute paths). -/
def relativePath (fromDir toPath : String) : String :=
  let p := dropCommonParts
    (((splitChar '/' fromDir.data).filter (fun s => s ≠ [])).map String.mk)
    (((splitChar '/' toPath.data).filter (fun s => s ≠ [])).map String.mk)
  joinWith "/" (p.1.map (fun _ => "..") ++ p.2)

/-- The destination of the generated file relative to the application root
(prepareDestination resolves .adonisjs/api.ts against the root); its
directory is what getDestinationDirectory returns. -/
def destinationDirectory (appRoot : String) : String :=
  appRoot ++ "/.adonisjs"

/-- extractRequest: search the handler method for a validateUsing call;
the first argument must be an identifier and must resolve to an
implementation, otherwise no schema is found (undefined); on success an
InferInput import-type string over the relative path of the schema file. -/
def extractRequest (destDir : String) (hd : HandlerData) : Option String :=
  match findValidateUsingInMethod hd.method with
  | none => none
  | some node =>
    match node with
    | TsNode.callExpression _ args _ =>
      match args with
      | TsNode.identifier text impls :: _ =>
        match impls with
        | [] => none
        | implPath :: _ =>
          some ("InferInput<typeof import(\x27" ++ relativePath destDir implPath
            ++ "\x27)[\x27" ++ text ++ "\x27]>")
      | _ => none
    | _ => none

/-! ### Pattern parsing (the matchit collaborator) and the named-routes array -/

/-- One parsed pattern node of the matchit collaborator: a numeric type
tag (0 static, 1 parameter, 2 wildcard, 3 optional parameter) and the
segment value with the sigil stripped. -/
structure MatchitSegment where
  type : Nat
  val : String
deriving DecidableEq, Repr

/-- Modelled from the spec: the external matchit parse of one URL segment,
tagging it static or dynamic and stripping the parameter sigil. -/
def matchitParseSegment (seg : String) : MatchitSegment :=
  match seg.data with
  | ['*'] => ⟨2, "*"⟩
  | ':' :: rest =>
    match rest.getLastD ' ' with
    | '?' => ⟨3, String.mk rest.dropLast⟩
    | _ => ⟨1, String.mk rest⟩
  | _ => ⟨0, seg⟩

/-- Modelled from the spec: the external matchit parse of a URL pattern
into ordered segment nodes. -/
def matchitParse (pattern : String) : List MatchitSegment :=
  (patternSegments pattern).map matchitParseSegment

/-- JavaScript truthiness of the optional route name: undefined and the
empty string are falsy. -/
def truthyName : Option String → Bool
  | none => false
  | some s => s ≠ ""

/-- A request/response type pair, keyed by a synthesized type name in the
typesByPattern map. -/
structure TypeEntry where
  request : String
  response : String
deriving DecidableEq, Repr

/-- Association-list lookup by string key, modelling a JavaScript object
property read. -/
def lookupAssoc {α : Type} : List (String × α) → String → Option α
  | [], _ => none
  | kv :: rest, k => if kv.1 = k then some kv.2 else lookupAssoc rest k

/-- Association-list update by string key, modelling a JavaScript object
property write: overwrite in place when the key exists, append otherwise
(insertion order preserved). -/
def setAssoc {α : Type} : List (String × α) → String → α → List (String × α)
  | [], k, v => [(k, v)]
  | kv :: rest, k, v => if kv.1 = k then (k, v) :: rest else kv :: setAssoc rest k v

/-- One entry of the named-routes array. -/
structure RouteNameEntry where
  params : List String
  name : Option String
  path : String
  method : List String
  types : String
deriving DecidableEq, Repr

/-- The entry generateRoutesNameArray builds for one route: the dynamic
(non-zero type) parsed segment values as params, the route name, pattern
and methods, and the synthesized type name with fallback to unknown when it
is absent from typesByPattern. -/
def mkRouteNameEntry (typesByPattern : List (String × TypeEntry)) (r : Route) : RouteNameEntry :=
  let params := ((matchitParse r.pattern).filter (fun n => n.type ≠ 0)).map (fun n => n.val)
  let typeName := generateTypeName r
  let typeName := if (lookupAssoc typesByPattern typeName).isSome then typeName else "unknown"
  ⟨params, r.name, r.pattern, r.methods, typeName⟩

/-- generateRoutesNameArray: map every route to its entry, then keep the
entries whose name is truthy. -/
def generateRoutesNameArray (routes : List Route) (typesByPattern : List (String × TypeEntry)) :
    List RouteNameEntry :=
  (routes.map (mkRouteNameEntry typesByPattern)).filter (fun e => truthyName e.name)

/-! ### The definition tree -/

/-- A value of the nested definition object: a nested object (list of
key-value entries in insertion order) or a type-name string assigned at a
verb key. -/
inductive DefValue where
  | obj : List (String × DefValue) → DefValue
  | str : String → DefValue
deriving Repr

/-- The leaf update of the definition-tree fold: set the presence marker
key and then one key per computed method key, all mapping to the
synthesized type name. -/
def applyLeaf (typeName : String) (keys : List String) (es : List (String × DefValue)) :
    List (String × DefValue) :=
  keys.foldl (fun acc m => setAssoc acc m (DefValue.str typeName))
    (setAssoc es "$url" (DefValue.obj []))

/-- Walking or creating nested nodes for every segment and applying the
leaf update at the last one, mirroring the forEach over segments.  A
missing key and (by JavaScript falsiness) an empty-string value are
replaced by a fresh object; descending into a non-empty string value would
fault in the source (a property write on a primitive in strict mode), so
that route records nothing. -/
def insertSegments (entries : List (String × DefValue)) (segments : List String)
    (leafFn : List (String × DefValue) → List (String × DefValue)) :
    List (String × DefValue) :=
  match segments with
  | [] => entries
  | seg :: rest =>
    match lookupAssoc entries seg with
    | some (DefValue.obj es) =>
      let es := if rest.isEmpty then leafFn es else insertSegments es rest leafFn
      setAssoc entries seg (DefValue.obj es)
    | some (DefValue.str s) =>
      if s = "" then
        let es := if rest.isEmpty then leafFn [] else insertSegments [] rest leafFn
        setAssoc entries seg (DefValue.obj es)
      else entries
    | none =>
      let es := if rest.isEmpty then leafFn [] else insertSegments [] rest leafFn
      setAssoc entries seg (DefValue.obj es)

/-- The per-route verb keys: lowercased methods prefixed with the dollar
sign, then filtered against the bare string head (the comparison in the
source is against a string without the prefix). -/
def methodKeys (methods : List String) : List String :=
  (methods.map (fun m => "$" ++ toLowerStr m)).filter (fun m => m ≠ "head")

/-! ### The generation pass -/

/-- The environment of one generation run: the source-file index, the
optional codegen config, and the application root (fixing the destination
directory). -/
structure GenEnv where
  sourceFiles : List SourceFile
  config : Option CodegenConfig
  appRoot : String

/-- The two accumulators of the generation loop. -/
structure GenState where
  definition : List (String × DefValue)
  typesByPattern : List (String × TypeEntry)
deriving Repr

/-- The request field of a type entry: the MakeTuyauRequest wrapper when a
truthy schema import string was extracted, the literal unknown
otherwise. -/
def requestTypeString : Option String → String
  | none => "unknown"
  | some s => if s = "" then "unknown" else "MakeTuyauRequest<" ++ s ++ ">"

/-- Processing one route of the generation loop: skip inline function
handlers; resolve the controller file by suffix match, the class and the
method (warn and skip on failure); extract the request schema; compute the
verb keys and segments; then record the type entry and fold the route into
the definition tree (an empty segment list records nothing, since the leaf
code sits inside the segment iteration). -/
def processRoute (env : GenEnv) (state : GenState) (route : Route) : GenState :=
  match route.handler with
  | Handler.func => state
  | Handler.reference ref =>
    let routeHandler := parseBindingReference ref
    let fileSuffix := replaceFirstHash routeHandler.moduleNameOrPath ++ ".ts"
    match env.sourceFiles.find? (fun sf => strEndsWith sf.filePath fileSuffix) with
    | none => state
    | some file =>
      match extractClassHandlerData file routeHandler with
      | none => state
      | some handlerData =>
        let destDir := destinationDirectory env.appRoot
        let schemaImport := extractRequest destDir handlerData
        let keys := methodKeys route.methods
        match patternSegments route.pattern with
        | [] => state
        | seg :: rest =>
          let typeName := generateTypeName route
          let rel := relativePath destDir file.filePath
          let entry : TypeEntry := ⟨requestTypeString schemaImport,
            "MakeTuyauResponse<import(\x27" ++ rel ++ "\x27).default[\x27"
              ++ routeHandler.method ++ "\x27]>"⟩
          ⟨insertSegments state.definition (seg :: rest) (applyLeaf typeName keys),
            setAssoc state.typesByPattern typeName entry⟩

/-! ### The file emitter (writeApiFile, a pure content function) -/

/-- generateDefinitionInterface: one line per key, recursing into nested
objects with increased indentation (object values open a braced block,
string values are written inline). -/
def defInterfaceBody : List (String × DefValue) → String → String
  | [], _ => ""
  | (k, DefValue.obj es) :: rest, indent =>
    indent ++ "\x27" ++ k ++ "\x27: \x7b\n" ++ defInterfaceBody es (indent ++ "  ")
      ++ indent ++ "\x7d;\n" ++ defInterfaceBody rest indent
  | (k, DefValue.str s) :: rest, indent =>
    indent ++ "\x27" ++ k ++ "\x27: " ++ s ++ ";\n" ++ defInterfaceBody rest indent

/-- JSON serialization of a string array without spaces, as the JavaScript
stringify produces for the params and method arrays. -/
def jsonStringArray (xs : List String) : String :=
  "[" ++ joinWith "," (xs.map (fun s => "\x22" ++ s ++ "\x22")) ++ "]"

/-- The template rendering of the optional route name (an absent name
would render as the text undefined). -/
def renderName : Option String → String
  | none => "undefined"
  | some s => s

/-- The type-alias block of the emitted file: one type per typesByPattern
entry, in insertion order. -/
def typeAliasBlock (types : List (String × TypeEntry)) : String :=
  types.foldl (fun acc kv =>
    acc ++ "type " ++ kv.1 ++ " = \x7b\n  request: " ++ kv.2.request
      ++ "\n  response: " ++ kv.2.response ++ "\n\x7d\n") ""

/-- The routes-array block of the emitted file: one object literal per
named-routes entry. -/
def routesArrayBlock (arr : List RouteNameEntry) : String :=
  arr.foldl (fun acc route =>
    acc ++ "  \x7b\n    params: " ++ jsonStringArray route.params
      ++ ",\n    name: \x27" ++ renderName route.name
      ++ "\x27,\n    path: \x27" ++ route.path
      ++ "\x27,\n    method: " ++ jsonStringArray route.method
      ++ ",\n    types: \x7b\x7d as " ++ route.types
      ++ ",\n  \x7d,\n") ""

/-- writeApiFile as a pure function from the accumulated state to the full
content of the overwritten destination file. -/
def writeApiFileContent (typesByPattern : List (String × TypeEntry))
    (definition : List (String × DefValue)) (arr : List RouteNameEntry) : String :=
  "import type \x7b MakeTuyauRequest, MakeTuyauResponse \x7d from \x27@tuyau/utils/types\x27\n"
    ++ "import type \x7b InferInput \x7d from \x27@vinejs/vine/types\x27\n"
    ++ "\n"
    ++ typeAliasBlock typesByPattern
    ++ "export interface ApiDefinition \x7b\n"
    ++ defInterfaceBody definition "  "
    ++ "\x7d\n"
    ++ "const routes = [\n"
    ++ routesArrayBlock arr
    ++ "] as const;\n"
    ++ "export const api = \x7b\n"
    ++ "  routes,\n"
    ++ "  definition: \x7b\x7d as ApiDefinition\n"
    ++ "\x7d\n"
    ++ "declare module \x27@tuyau/inertia/types\x27 \x7b\n"
    ++ "  type ApiDefinition = typeof api\n"
    ++ "  export interface Api extends ApiDefinition \x7b\x7d\n"
    ++ "\x7d\n"

/-- The result of one full generation run. -/
structure GenResult where
  definition : List (String × DefValue)
  typesByPattern : List (String × TypeEntry)
  routesNameArray : List RouteNameEntry
  content : String

/-- The full generation pass: filter the routes for the definitions mode,
fold them through processRoute, build the named-routes array from the
already-filtered list refiltered for the routes mode, and render the file
content. -/
def generatePass (env : GenEnv) (allRoutes : List Route) : GenResult :=
  let routes := filterRoutes env.config allRoutes Mode.definitions
  let st := routes.foldl (processRoute env) ⟨[], []⟩
  let arr := generateRoutesNameArray (filterRoutes env.config routes Mode.routes) st.typesByPattern
  ⟨st.definition, st.typesByPattern, arr, writeApiFileContent st.typesByPattern st.definition arr⟩

/-- One run against the destination file: the previous content is
discarded (the file is created with overwrite and its text removed before
insertion), and the new content is a function of the inputs alone. -/
def runGenerate (env : GenEnv) (allRoutes : List Route) (previous : Option String) : String :=
  match previous with
  | _ => (generatePass env allRoutes).content

/-! ### Concrete fixtures used by the theorems -/

/-- A trivial method body with no statements of interest. -/
def bodyPlain : TsNode := TsNode.plain []

/-- A controller file with a default-exported class holding an index
method. -/
def usersControllerFile : SourceFile :=
  ⟨"/app/app/controllers/users_controller.ts", [⟨true, [⟨"index", some bodyPlain⟩]⟩]⟩

/-- An environment with the users controller, no codegen config, root at
the app directory. -/
def envUsers : GenEnv := ⟨[usersControllerFile], none, "/app"⟩

/-- A GET+HEAD route on the users pattern, handled by the users
controller. -/
def routeUsersGetHead : Route :=
  ⟨"/users", ["GET", "HEAD"], Handler.reference "#controllers/users_controller.index",
    some "users.index"⟩

/-! ### C1 -/

/-- C1: the claim says the terminal node never receives a verb key for the
HEAD method.  The code filters the string head out of the method keys only
after prefixing every key with the dollar sign, so the filter never removes
anything and a HEAD method does produce the verb key at the leaf: for a
GET+HEAD route the leaf carries both a get key and a head key.  This
evaluates the generator at that failing input. -/
theorem head_verb_key_assigned_at_leaf :
    methodKeys ["GET", "HEAD"] = ["$get", "$head"] ∧
    (generatePass envUsers [routeUsersGetHead]).definition =
      [("users", DefValue.obj
        [("$url", DefValue.obj []),
         ("$get", DefValue.str "UsersGetHead"),
         ("$head", DefValue.str "UsersGetHead")])] :=
  ⟨rfl, rfl⟩

/-- The synthesized type name depends only on the pattern and methods
fields of the route. -/
theorem generateTypeName_congr (r r' : Route) (hp : r.pattern = r'.pattern)
    (hm : r.methods = r'.methods) : generateTypeName r = generateTypeName r' := by
  simp only [generateTypeName, hp, hm]

/-! ### C2 -/

/-- C2: type-name synthesis is a deterministic pure function of the
pattern and methods alone (routes agreeing on both get the same name), and
the two specified evaluations hold: the dynamic users-comments pattern with
GET yields UsersIdCommentsIdGet, and the users pattern with GET and HEAD
yields UsersGetHead (HEAD is not filtered in type naming). -/
theorem generateTypeName_spec :
    (∀ r r' : Route, r.pattern = r'.pattern → r.methods = r'.methods →
      generateTypeName r = generateTypeName r') ∧
    generateTypeName ⟨"/users/:id/comments/:commentId", ["GET"], Handler.func, none⟩ =
      "UsersIdCommentsIdGet" ∧
    generateTypeName ⟨"/users", ["GET", "HEAD"],
      Handler.reference "#controllers/users_controller.index", some "users.index"⟩ =
      "UsersGetHead" :=
  ⟨generateTypeName_congr, rfl, rfl⟩

/-- Witness for C2: the purity conjunct applied at two concrete routes
differing only in handler and name. -/
theorem generateTypeName_spec_witness :
    generateTypeName ⟨"/users", ["GET"], Handler.func, none⟩ =
      generateTypeName ⟨"/users", ["GET"], Handler.reference "a.b", some "nm"⟩ :=
  generateTypeName_spec.1 _ _ rfl rfl

/-! ### C9 -/

/-- C9: generation is deterministic and the destination is fully
overwritten: the emitted content is a function of the inputs alone (any
two previous file contents give the same output), and a second run on the
output of a first run reproduces it byte for byte. -/
theorem generation_deterministic_idempotent :
    (∀ env allRoutes previous previous2,
      runGenerate env allRoutes previous = runGenerate env allRoutes previous2) ∧
    (∀ env allRoutes previous,
      runGenerate env allRoutes (some (runGenerate env allRoutes previous)) =
        runGenerate env allRoutes previous) ∧
    (∀ env allRoutes previous,
      runGenerate env allRoutes previous =
        writeApiFileContent (generatePass env allRoutes).typesByPattern
          (generatePass env allRoutes).definition (generatePass env allRoutes).routesNameArray) :=
  ⟨fun _ _ _ _ => rfl, fun _ _ _ => rfl, fun _ _ _ => rfl⟩

/-! ### C3 -/

/-- A mode filter entry that is not a predicate function (it is absent or
an only/except list). -/
def notFuncSpec : Option FilterSpec → Prop
  | some (FilterSpec.func _) => False
  | _ => True

/-- A users route used in the filtering examples. -/
def routeUsersPlain : Route := ⟨"/users", ["GET"], Handler.func, none⟩

/-- An admin route used in the filtering examples. -/
def routeAdminPlain : Route := ⟨"/admin", ["GET"], Handler.func, none⟩

/-- The regular expression anchored on the users prefix, modelled by its
match predicate. -/
def usersRegex : FilterEntry :=
  FilterEntry.regex (fun s => isPrefixList "/users".data s.data)

/-- C3: the route filter returns its input unchanged when the mode has no
configuration (or one with neither list); with an only list a route is
kept iff its pattern matches some entry; with an except list (and no only)
a route is kept iff it matches no entry; when both lists are present the
only list decides (the only-list conjunct allows any non-function except
entry); and the two specified evaluations hold on the users/admin pair. -/
theorem filterRoutes_spec :
    (∀ cfg routes mode, modeConfig cfg mode = none →
      filterRoutes cfg routes mode = routes) ∧
    (∀ cfg routes mode mc, modeConfig cfg mode = some mc →
      mc.only = none → mc.except = none →
      filterRoutes cfg routes mode = routes) ∧
    (∀ cfg routes mode mc l, modeConfig cfg mode = some mc →
      mc.only = some (FilterSpec.list l) → notFuncSpec mc.except →
      filterRoutes cfg routes mode =
        routes.filter (fun r => l.any (matchesEntry r.pattern))) ∧
    (∀ cfg routes mode mc l, modeConfig cfg mode = some mc →
      mc.only = none → mc.except = some (FilterSpec.list l) →
      filterRoutes cfg routes mode =
        routes.filter (fun r => !(l.any (matchesEntry r.pattern)))) ∧
    filterRoutes (some ⟨some ⟨some (FilterSpec.list [usersRegex]), none⟩, none⟩)
      [routeUsersPlain, routeAdminPlain] Mode.definitions = [routeUsersPlain] ∧
    filterRoutes (some ⟨some ⟨none, some (FilterSpec.list [FilterEntry.str "/admin"])⟩, none⟩)
      [routeUsersPlain, routeAdminPlain] Mode.definitions = [routeUsersPlain] := by
  refine ⟨?_, ?_, ?_, ?_, rfl, rfl⟩
  · intro cfg routes mode h
    simp only [filterRoutes, h]
  · intro cfg routes mode mc h ho he
    simp only [filterRoutes, h, ho, he]
  · intro cfg routes mode mc l h ho hne
    obtain ⟨o, e⟩ := mc
    simp only at ho
    subst ho
    simp only [filterRoutes, h]
    apply List.filter_congr
    intro r _
    cases e with
    | none => rfl
    | some spec =>
      cases spec with
      | func f => exact absurd hne (by simp [notFuncSpec])
      | list l2 => rfl
  · intro cfg routes mode mc l h ho he
    obtain ⟨o, e⟩ := mc
    simp only at ho he
    subst ho
    subst he
    simp only [filterRoutes, h]
    rfl

/-- Witness for C3: the first three general conjuncts applied at concrete
configurations. -/
theorem filterRoutes_spec_witness :
    filterRoutes none [routeUsersPlain] Mode.routes = [routeUsersPlain] ∧
    filterRoutes (some ⟨none, some ⟨none, none⟩⟩) [routeAdminPlain] Mode.routes =
      [routeAdminPlain] ∧
    filterRoutes
      (some ⟨some ⟨some (FilterSpec.list [usersRegex]),
        some (FilterSpec.list [FilterEntry.str "/users"])⟩, none⟩)
      [routeUsersPlain, routeAdminPlain] Mode.definitions =
      [routeUsersPlain, routeAdminPlain].filter
        (fun r => [usersRegex].any (matchesEntry r.pattern)) ∧
    filterRoutes (some ⟨none, some ⟨none, some (FilterSpec.list [FilterEntry.str "/admin"])⟩⟩)
      [routeUsersPlain, routeAdminPlain] Mode.routes =
      [routeUsersPlain, routeAdminPlain].filter
        (fun r => !([FilterEntry.str "/admin"].any (matchesEntry r.pattern))) :=
  ⟨filterRoutes_spec.1 _ _ _ rfl,
   filterRoutes_spec.2.1 _ _ _ _ rfl rfl rfl,
   filterRoutes_spec.2.2.1 _ _ _ _ _ rfl rfl trivial,
   filterRoutes_spec.2.2.2.1 _ _ _ _ _ rfl rfl rfl⟩

/-! ### C4 -/

/-- Filtering a mapped list is mapping the filtered list when the
predicate is precomposed with the map. -/
theorem filter_map_eq_map_filter {α β : Type} (f : α → β) (p : β → Bool) (l : List α) :
    (l.map f).filter p = (l.filter (fun a => p (f a))).map f := by
  induction l with
  | nil => rfl
  | cons a t ih =>
    simp only [List.map_cons, List.filter_cons]
    cases h : p (f a) <;> simp [ih]

/-- A route whose name is present but empty. -/
def routeEmptyName : Route := ⟨"/users", ["GET"], Handler.func, some ""⟩

/-- C4 counterexample: the claim promises exactly one entry for each route
that has a name, but a route whose name is the empty string has a name and
still produces no entry, because the code filters on JavaScript truthiness
of the name and the empty string is falsy. -/
theorem routesNameArray_drops_empty_name :
    routeEmptyName.name.isSome = true ∧
    generateRoutesNameArray [routeEmptyName] [] = [] :=
  ⟨rfl, rfl⟩

/-- C4 (amended): the output contains exactly one entry for each route
whose name is present and non-empty, in input order, and no entry for any
other route; the entry of a route does not depend on its handler, so a
plain-function handler is still eligible, and with an empty type map its
types field falls back to the literal unknown. -/
theorem generateRoutesNameArray_spec :
    (∀ routes types, generateRoutesNameArray routes types =
      (routes.filter (fun r => truthyName r.name)).map (mkRouteNameEntry types)) ∧
    (∀ types (r r' : Route), r.pattern = r'.pattern → r.methods = r'.methods →
      r.name = r'.name → mkRouteNameEntry types r = mkRouteNameEntry types r') ∧
    generateRoutesNameArray [⟨"/fn", ["POST"], Handler.func, some "fn.route"⟩] [] =
      [⟨[], some "fn.route", "/fn", ["POST"], "unknown"⟩] := by
  refine ⟨fun routes types => ?_, fun types r r' hp hm hn => ?_, rfl⟩
  · exact filter_map_eq_map_filter (mkRouteNameEntry types)
      (fun e => truthyName e.name) routes
  · simp only [mkRouteNameEntry, hp, hm, hn, generateTypeName_congr r r' hp hm]

/-- Witness for C4: the handler-independence conjunct applied at two
concrete routes differing only in handler. -/
theorem generateRoutesNameArray_spec_witness :
    mkRouteNameEntry [] ⟨"/fn", ["POST"], Handler.func, some "fn.route"⟩ =
      mkRouteNameEntry [] ⟨"/fn", ["POST"], Handler.reference "a.b", some "fn.route"⟩ :=
  generateRoutesNameArray_spec.2.1 _ _ _ rfl rfl rfl

/-! ### C5 -/

/-- The dynamic-parameter segment values of a pattern, in left-to-right
order: the values of the parsed segments whose type tag is non-zero. -/
def dynamicSegmentValues (pattern : String) : List String :=
  ((matchitParse pattern).filter (fun n => n.type ≠ 0)).map (fun n => n.val)

/-- C5: every entry of the named-routes array carries as params exactly
the dynamic segment values of its pattern, in pattern order, and their
count equals the count of dynamic segments of the pattern; and the
users-comments pattern yields the params id and commentId. -/
theorem routeParams_spec :
    (∀ routes types e, e ∈ generateRoutesNameArray routes types →
      e.params = dynamicSegmentValues e.path ∧
      e.params.length = ((matchitParse e.path).filter (fun n => n.type ≠ 0)).length) ∧
    dynamicSegmentValues "/users/:id/comments/:commentId" = ["id", "commentId"] := by
  refine ⟨fun routes types e he => ?_, rfl⟩
  simp only [generateRoutesNameArray, List.mem_filter, List.mem_map] at he
  obtain ⟨⟨r, _, rfl⟩, _⟩ := he
  exact ⟨rfl, by simp [mkRouteNameEntry, dynamicSegmentValues]⟩

/-- Witness for C5: the general conjunct applied at a concrete one-route
list. -/
theorem routeParams_spec_witness :
    (mkRouteNameEntry [] ⟨"/users/:id/comments/:commentId", ["GET"], Handler.func,
      some "c.edit"⟩).params = dynamicSegmentValues "/users/:id/comments/:commentId" :=
  (routeParams_spec.1 [⟨"/users/:id/comments/:commentId", ["GET"], Handler.func, some "c.edit"⟩]
    [] _ (by simp [generateRoutesNameArray, mkRouteNameEntry, truthyName])).1

/-! ### C6 -/

/-- The failing shapes of the first validateUsing argument: absent, not a
plain identifier, or an identifier with no resolvable implementation. -/
def badSchemaArg : List TsNode → Prop
  | TsNode.identifier _ impls :: _ => impls = []
  | TsNode.callExpression _ _ _ :: _ => True
  | TsNode.plain _ :: _ => True
  | [] => True

/-- A handler body whose validateUsing call takes a non-identifier first
argument. -/
def bodyBadArg : TsNode :=
  TsNode.plain [TsNode.callExpression "request.validateUsing" [TsNode.plain []] []]

/-- A handler body whose validateUsing call takes an identifier with no
resolvable implementation. -/
def bodyNoImpl : TsNode :=
  TsNode.plain [TsNode.callExpression "request.validateUsing"
    [TsNode.identifier "missingValidator" []] []]

/-- A handler body whose validateUsing call takes a resolvable identifier. -/
def bodyGood : TsNode :=
  TsNode.plain [TsNode.callExpression "request.validateUsing"
    [TsNode.identifier "createPostValidator" ["/app/app/validators/post_validator.ts"]] []]

/-- A controller with the three schema-extraction shapes as methods. -/
def postsControllerFile : SourceFile :=
  ⟨"/app/app/controllers/posts_controller.ts",
    [⟨true, [⟨"badArg", some bodyBadArg⟩, ⟨"noImpl", some bodyNoImpl⟩,
      ⟨"store", some bodyGood⟩]⟩]⟩

/-- The environment for the schema-extraction pipeline runs. -/
def envPosts : GenEnv := ⟨[postsControllerFile], none, "/app"⟩

/-- A route whose validateUsing first argument is not an identifier. -/
def rBadArg : Route :=
  ⟨"/badarg", ["POST"], Handler.reference "#controllers/posts_controller.badArg", none⟩

/-- A route whose validateUsing identifier has no implementation. -/
def rNoImpl : Route :=
  ⟨"/noimpl", ["POST"], Handler.reference "#controllers/posts_controller.noImpl", none⟩

/-- A route whose validateUsing identifier resolves. -/
def rStore : Route :=
  ⟨"/store", ["POST"], Handler.reference "#controllers/posts_controller.store", none⟩

/-- C6: whenever the validateUsing call found in a handler has a first
argument that is not a plain identifier, or an identifier whose
declaration does not resolve, schema extraction returns none rather than
an error; and in the full pass both failing routes still produce their
type entry with the request type exactly the literal unknown while
generation continues to the following route (whose schema resolves). -/
theorem extractRequest_soft_fail :
    (∀ destDir hd callee args kids,
      findValidateUsingInMethod hd.method = some (TsNode.callExpression callee args kids) →
      badSchemaArg args →
      extractRequest destDir hd = none) ∧
    (generatePass envPosts [rBadArg, rNoImpl, rStore]).typesByPattern =
      [("BadargPost", ⟨"unknown",
        "MakeTuyauResponse<import(\x27../app/controllers/posts_controller.ts\x27).default[\x27badArg\x27]>"⟩),
       ("NoimplPost", ⟨"unknown",
        "MakeTuyauResponse<import(\x27../app/controllers/posts_controller.ts\x27).default[\x27noImpl\x27]>"⟩),
       ("StorePost",
        ⟨"MakeTuyauRequest<InferInput<typeof import(\x27../app/validators/post_validator.ts\x27)[\x27createPostValidator\x27]>>",
        "MakeTuyauResponse<import(\x27../app/controllers/posts_controller.ts\x27).default[\x27store\x27]>"⟩)] := by
  refine ⟨fun destDir hd callee args kids hfind hbad => ?_, rfl⟩
  simp only [extractRequest, hfind]
  match args, hbad with
  | [], _ => rfl
  | TsNode.identifier t impls :: _, hbad =>
    simp only [badSchemaArg] at hbad
    subst hbad
    rfl
  | TsNode.callExpression _ _ _ :: _, _ => rfl
  | TsNode.plain _ :: _, _ => rfl

/-- Witness for C6: the general conjunct applied to the handler whose
validateUsing call has a non-identifier first argument. -/
theorem extractRequest_soft_fail_witness :
    extractRequest "/app/.adonisjs" ⟨⟨"badArg", some bodyBadArg⟩, bodyBadArg⟩ = none :=
  extractRequest_soft_fail.1 "/app/.adonisjs" ⟨⟨"badArg", some bodyBadArg⟩, bodyBadArg⟩
    "request.validateUsing" [TsNode.plain []] [] rfl trivial

/-! ### C7 -/

/-- A controller file with no default-exported class. -/
def otherControllerFile : SourceFile :=
  ⟨"/app/app/controllers/other_controller.ts", [⟨false, [⟨"index", some bodyPlain⟩]⟩]⟩

/-- C7: handler resolution is a soft failure: extraction returns none when
no default-exported class exists or the named method is missing; the
generation step leaves the accumulated state unchanged when the controller
file is not found or class/method extraction fails; and a skipped route
does not disturb the fold over the remaining routes. -/
theorem handler_resolution_soft_fail :
    (∀ file rh, file.classes.find? (fun c => c.isDefaultExport) = none →
      extractClassHandlerData file rh = none) ∧
    (∀ file rh cd, file.classes.find? (fun c => c.isDefaultExport) = some cd →
      cd.methods.find? (fun m => m.name = rh.method) = none →
      extractClassHandlerData file rh = none) ∧
    (∀ env st route ref, route.handler = Handler.reference ref →
      env.sourceFiles.find? (fun sf => strEndsWith sf.filePath
        (replaceFirstHash (parseBindingReference ref).moduleNameOrPath ++ ".ts")) = none →
      processRoute env st route = st) ∧
    (∀ env st route ref file, route.handler = Handler.reference ref →
      env.sourceFiles.find? (fun sf => strEndsWith sf.filePath
        (replaceFirstHash (parseBindingReference ref).moduleNameOrPath ++ ".ts")) = some file →
      extractClassHandlerData file (parseBindingReference ref) = none →
      processRoute env st route = st) ∧
    (∀ env st r rest, processRoute env st r = st →
      (r :: rest).foldl (processRoute env) st = rest.foldl (processRoute env) st) := by
  refine ⟨fun file rh h => ?_, fun file rh cd h1 h2 => ?_,
    fun env st route ref hh hf => ?_, fun env st route ref file hh hf he => ?_,
    fun env st r rest h => ?_⟩
  · simp only [extractClassHandlerData, h]
  · simp only [extractClassHandlerData, h1, h2]
  · simp only [processRoute, hh, hf]
  · simp only [processRoute, hh, hf, he]
  · simp only [List.foldl, h]

/-- Witness for C7: the resolution-failure conjuncts applied at a file
with no default export, a missing method, a missing file, and a fold over
one skipped route. -/
theorem handler_resolution_soft_fail_witness :
    extractClassHandlerData otherControllerFile ⟨"#controllers/other_controller", "index"⟩ =
      none ∧
    extractClassHandlerData usersControllerFile ⟨"#controllers/users_controller", "nope"⟩ =
      none ∧
    processRoute envUsers ⟨[], []⟩
      ⟨"/missing", ["GET"], Handler.reference "#controllers/missing_controller.index", none⟩ =
      (⟨[], []⟩ : GenState) ∧
    [⟨"/missing", ["GET"], Handler.reference "#controllers/missing_controller.index",
      (none : Option String)⟩].foldl (processRoute envUsers) ⟨[], []⟩ = (⟨[], []⟩ : GenState) := by
  refine ⟨handler_resolution_soft_fail.1 otherControllerFile _ rfl,
    handler_resolution_soft_fail.2.1 usersControllerFile _ ⟨true, [⟨"index", some bodyPlain⟩]⟩
      rfl rfl,
    handler_resolution_soft_fail.2.2.1 envUsers ⟨[], []⟩ _
      "#controllers/missing_controller.index" rfl rfl,
    handler_resolution_soft_fail.2.2.2.2 envUsers ⟨[], []⟩ _ []
      (handler_resolution_soft_fail.2.2.1 envUsers ⟨[], []⟩ _
        "#controllers/missing_controller.index" rfl rfl)⟩

/-! ### C10 -/

/-- Membership in a filtered route list implies membership in its input,
whatever the configuration. -/
theorem mem_of_mem_filterRoutes {cfg : Option CodegenConfig} {rs : List Route} {mode : Mode}
    {r : Route} (h : r ∈ filterRoutes cfg rs mode) : r ∈ rs := by
  unfold filterRoutes at h
  split at h
  · exact h
  · split at h
    · exact h
    · exact List.mem_of_mem_filter h

/-- A configuration whose definitions mode excludes the admin pattern and
whose routes mode keeps every route (a match-all regular expression). -/
def cfgBothModes : CodegenConfig :=
  ⟨some ⟨none, some (FilterSpec.list [FilterEntry.str "/admin"])⟩,
    some ⟨some (FilterSpec.list [FilterEntry.regex (fun _ => true)]), none⟩⟩

/-- The environment carrying that configuration. -/
def envBothModes : GenEnv := ⟨[], some cfgBothModes, "/app"⟩

/-- A named admin route. -/
def routeAdminNamed : Route := ⟨"/admin", ["GET"], Handler.func, some "admin.index"⟩

/-- A named users route. -/
def routeUsersNamed : Route := ⟨"/users", ["GET"], Handler.func, some "users.index"⟩

/-- C10: the routes-mode filter is applied to the list already filtered by
the definitions mode: every named-routes entry stems from a route that
passed both filters, so a route excluded by the definitions filter never
reaches the named-routes array even when the routes filter alone would
keep it, as the concrete admin/users run shows. -/
theorem routes_filter_composed :
    (∀ env allRoutes e, e ∈ (generatePass env allRoutes).routesNameArray →
      ∃ r, r ∈ filterRoutes env.config allRoutes Mode.definitions ∧
        r ∈ filterRoutes env.config (filterRoutes env.config allRoutes Mode.definitions)
          Mode.routes ∧
        e.path = r.pattern) ∧
    filterRoutes (some cfgBothModes) [routeAdminNamed] Mode.routes = [routeAdminNamed] ∧
    (generatePass envBothModes [routeAdminNamed, routeUsersNamed]).routesNameArray =
      [⟨[], some "users.index", "/users", ["GET"], "unknown"⟩] := by
  refine ⟨fun env allRoutes e he => ?_, rfl, rfl⟩
  simp only [generatePass, generateRoutesNameArray, List.mem_filter, List.mem_map] at he
  obtain ⟨⟨r, hr, rfl⟩, _⟩ := he
  exact ⟨r, mem_of_mem_filterRoutes hr, hr, rfl⟩

/-- Witness for C10: the general conjunct applied to the users entry of
the concrete run. -/
theorem routes_filter_composed_witness :
    ∃ r, r ∈ filterRoutes envBothModes.config [routeAdminNamed, routeUsersNamed]
        Mode.definitions ∧
      r ∈ filterRoutes envBothModes.config
        (filterRoutes envBothModes.config [routeAdminNamed, routeUsersNamed] Mode.definitions)
        Mode.routes ∧
      (⟨[], some "users.index", "/users", ["GET"], "unknown"⟩ : RouteNameEntry).path =
        r.pattern :=
  routes_filter_composed.1 envBothModes [routeAdminNamed, routeUsersNamed]
    ⟨[], some "users.index", "/users", ["GET"], "unknown"⟩
    (by
      show _ ∈ [(⟨[], some "users.index", "/users", ["GET"], "unknown"⟩ : RouteNameEntry)]
      exact List.mem_singleton_self _)

/-! ### C8 -/

mutual

/-- All type-name strings at the leaves of one definition value. -/
def leafTypeNamesV : DefValue → List String
  | DefValue.obj es => leafTypeNames es
  | DefValue.str s => [s]

/-- All type-name strings at the leaves of a definition object. -/
def leafTypeNames : List (String × DefValue) → List String
  | [] => []
  | kv :: rest => leafTypeNamesV kv.2 ++ leafTypeNames rest

end

/-- Key presence in an association list. -/
def keyExists {α : Type} (entries : List (String × α)) (k : String) : Bool :=
  entries.any (fun kv => kv.1 = k)

/-- Writing a key preserves the presence of every present key. -/
theorem keyExists_setAssoc_of {α : Type} {m : List (String × α)} {s : String} (k : String)
    (v : α) (h : keyExists m s = true) : keyExists (setAssoc m k v) s = true := by
  induction m with
  | nil => simp [keyExists] at h
  | cons kv rest ih =>
    simp only [keyExists, List.any_cons, Bool.or_eq_true, decide_eq_true_eq] at h
    simp only [setAssoc]
    split
    · next hk =>
      simp only [keyExists, List.any_cons, Bool.or_eq_true, decide_eq_true_eq]
      rcases h with h | h
      · exact Or.inl (hk ▸ h)
      · exact Or.inr h
    · simp only [keyExists, List.any_cons, Bool.or_eq_true, decide_eq_true_eq]
      rcases h with h | h
      · exact Or.inl h
      · exact Or.inr (ih h)

/-- The key just written is present. -/
theorem keyExists_setAssoc_self {α : Type} (m : List (String × α)) (k : String) (v : α) :
    keyExists (setAssoc m k v) k = true := by
  induction m with
  | nil => simp [setAssoc, keyExists]
  | cons kv rest ih =>
    simp only [setAssoc]
    split
    · simp [keyExists]
    · simp only [keyExists, List.any_cons, Bool.or_eq_true, decide_eq_true_eq]
      exact Or.inr ih

/-- Key presence is the defined-ness of the lookup. -/
theorem keyExists_eq_isSome_lookup {α : Type} (m : List (String × α)) (k : String) :
    keyExists m k = (lookupAssoc m k).isSome := by
  induction m with
  | nil => rfl
  | cons kv rest ih =>
    simp only [keyExists, lookupAssoc, List.any_cons]
    by_cases h : kv.1 = k
    · simp [h]
    · simpa [h] using ih

/-- A leaf type name of an updated object was a leaf name of the object or
of the written value. -/
theorem mem_leafTypeNames_setAssoc {es : List (String × DefValue)} {k : String} {v : DefValue}
    {s : String} (h : s ∈ leafTypeNames (setAssoc es k v)) :
    s ∈ leafTypeNames es ∨ s ∈ leafTypeNamesV v := by
  induction es with
  | nil =>
    simp only [setAssoc, leafTypeNames, List.append_nil] at h
    exact Or.inr h
  | cons kv rest ih =>
    simp only [setAssoc] at h
    split at h
    · simp only [leafTypeNames, List.mem_append] at h
      rcases h with h | h
      · exact Or.inr h
      · exact Or.inl (by simp only [leafTypeNames, List.mem_append]; exact Or.inr h)
    · simp only [leafTypeNames, List.mem_append] at h
      rcases h with h | h
      · exact Or.inl (by simp only [leafTypeNames, List.mem_append]; exact Or.inl h)
      · rcases ih h with h' | h'
        · exact Or.inl (by simp only [leafTypeNames, List.mem_append]; exact Or.inr h')
        · exact Or.inr h'

/-- Every leaf name below a looked-up value is a leaf name of the object. -/
theorem mem_leafTypeNames_of_lookup {es : List (String × DefValue)} {k : String} {v : DefValue}
    (h : lookupAssoc es k = some v) {s : String} (hs : s ∈ leafTypeNamesV v) :
    s ∈ leafTypeNames es := by
  induction es with
  | nil => simp [lookupAssoc] at h
  | cons kv rest ih =>
    simp only [lookupAssoc] at h
    split at h
    · injection h with h
      subst h
      simp only [leafTypeNames, List.mem_append]
      exact Or.inl hs
    · simp only [leafTypeNames, List.mem_append]
      exact Or.inr (ih h)

/-- Folding verb-key writes of one type name adds at most that name to the
leaf names. -/
theorem mem_leafTypeNames_fold_str {tn s : String} :
    ∀ (keys : List String) (es : List (String × DefValue)),
      s ∈ leafTypeNames (keys.foldl (fun acc m => setAssoc acc m (DefValue.str tn)) es) →
      s ∈ leafTypeNames es ∨ s = tn := by
  intro keys
  induction keys with
  | nil => exact fun es h => Or.inl h
  | cons m ms ih =>
    intro es h
    rcases ih (setAssoc es m (DefValue.str tn)) h with h' | h'
    · rcases mem_leafTypeNames_setAssoc h' with h'' | h''
      · exact Or.inl h''
      · simp only [leafTypeNamesV, List.mem_singleton] at h''
        exact Or.inr h''
    · exact Or.inr h'

/-- The leaf update adds at most the written type name to the leaf
names. -/
theorem mem_leafTypeNames_applyLeaf {tn : String} {keys : List String}
    {es : List (String × DefValue)} {s : String}
    (h : s ∈ leafTypeNames (applyLeaf tn keys es)) :
    s ∈ leafTypeNames es ∨ s = tn := by
  rcases mem_leafTypeNames_fold_str keys _ h with h' | h'
  · rcases mem_leafTypeNames_setAssoc h' with h'' | h''
    · exact Or.inl h''
    · simp [leafTypeNamesV, leafTypeNames] at h''
  · exact Or.inr h'

/-- The segment fold adds at most what its leaf update adds. -/
theorem mem_leafTypeNames_insertSegments {tn : String}
    {leafFn : List (String × DefValue) → List (String × DefValue)}
    (hleaf : ∀ es' s, s ∈ leafTypeNames (leafFn es') → s ∈ leafTypeNames es' ∨ s = tn) :
    ∀ (segments : List String) (es : List (String × DefValue)) (s : String),
      s ∈ leafTypeNames (insertSegments es segments leafFn) →
      s ∈ leafTypeNames es ∨ s = tn := by
  intro segments
  induction segments with
  | nil => exact fun es s h => Or.inl h
  | cons seg rest ih =>
    intro es s h
    simp only [insertSegments] at h
    split at h
    · next es0 heq =>
      rcases mem_leafTypeNames_setAssoc h with h' | h'
      · exact Or.inl h'
      · simp only [leafTypeNamesV] at h'
        by_cases hr : rest.isEmpty <;> simp only [hr, if_true, if_false] at h'
        · rcases hleaf es0 s h' with h'' | h''
          · exact Or.inl (mem_leafTypeNames_of_lookup heq h'')
          · exact Or.inr h''
        · rcases ih es0 s h' with h'' | h''
          · exact Or.inl (mem_leafTypeNames_of_lookup heq h'')
          · exact Or.inr h''
    · next str heq =>
      split at h
      · rcases mem_leafTypeNames_setAssoc h with h' | h'
        · exact Or.inl h'
        · simp only [leafTypeNamesV] at h'
          by_cases hr : rest.isEmpty <;> simp only [hr, if_true, if_false] at h'
          · rcases hleaf [] s h' with h'' | h''
            · simp [leafTypeNames] at h''
            · exact Or.inr h''
          · rcases ih [] s h' with h'' | h''
            · simp [leafTypeNames] at h''
            · exact Or.inr h''
      · exact Or.inl h
    · rcases mem_leafTypeNames_setAssoc h with h' | h'
      · exact Or.inl h'
      · simp only [leafTypeNamesV] at h'
        by_cases hr : rest.isEmpty <;> simp only [hr, if_true, if_false] at h'
        · rcases hleaf [] s h' with h'' | h''
          · simp [leafTypeNames] at h''
          · exact Or.inr h''
        · rcases ih [] s h' with h'' | h''
          · simp [leafTypeNames] at h''
          · exact Or.inr h''

/-- The invariant of the generation loop: every leaf type name of the
accumulated definition tree is a key of the accumulated type map. -/
def TypesInvariant (st : GenState) : Prop :=
  ∀ s, s ∈ leafTypeNames st.definition → keyExists st.typesByPattern s = true

/-- Processing one route preserves the invariant: a skipped route leaves
the state unchanged, and a recorded route writes its type name to the map
before assigning it at the leaf. -/
theorem typesInvariant_processRoute (env : GenEnv) {st : GenState} (route : Route)
    (h : TypesInvariant st) : TypesInvariant (processRoute env st route) := by
  unfold processRoute
  split
  · exact h
  · dsimp only
    split
    · exact h
    · split
      · exact h
      · split
        · exact h
        · intro s hs
          rcases mem_leafTypeNames_insertSegments
            (fun es' s' h' => mem_leafTypeNames_applyLeaf h') _ _ s hs with h' | h'
          · exact keyExists_setAssoc_of _ _ (h s h')
          · exact h' ▸ keyExists_setAssoc_self _ _ _

/-- The fold over all routes preserves the invariant. -/
theorem typesInvariant_foldl (env : GenEnv) :
    ∀ (routes : List Route) (st : GenState), TypesInvariant st →
      TypesInvariant (routes.foldl (processRoute env) st) := by
  intro routes
  induction routes with
  | nil => exact fun st h => h
  | cons r rest ih => exact fun st h => ih _ (typesInvariant_processRoute env r h)

/-- C8: after processing any route sequence, every type name assigned at a
definition-tree leaf indexes into typesByPattern (so a fortiori is a key
or the literal unknown), and every types field of the named-routes array
is a typesByPattern key or the literal unknown; the emitted file therefore
never references an undefined type name. -/
theorem leaf_type_names_indexed :
    (∀ env allRoutes s, s ∈ leafTypeNames (generatePass env allRoutes).definition →
      keyExists (generatePass env allRoutes).typesByPattern s = true ∨ s = "unknown") ∧
    (∀ routes types e, e ∈ generateRoutesNameArray routes types →
      keyExists types e.types = true ∨ e.types = "unknown") := by
  constructor
  · intro env allRoutes s hs
    exact Or.inl (typesInvariant_foldl env (filterRoutes env.config allRoutes Mode.definitions)
      ⟨[], []⟩ (fun s h => by simp [leafTypeNames] at h) s hs)
  · intro routes types e he
    simp only [generateRoutesNameArray, List.mem_filter, List.mem_map] at he
    obtain ⟨⟨r, _, rfl⟩, _⟩ := he
    simp only [mkRouteNameEntry]
    by_cases h : (lookupAssoc types (generateTypeName r)).isSome
    · refine Or.inl ?_
      simp only [h, if_true]
      rw [keyExists_eq_isSome_lookup]
      exact h
    · refine Or.inr ?_
      simp [h]

/-- Witness for C8: both conjuncts applied to the concrete GET+HEAD run. -/
theorem leaf_type_names_indexed_witness :
    (keyExists (generatePass envUsers [routeUsersGetHead]).typesByPattern "UsersGetHead" = true ∨
      "UsersGetHead" = "unknown") ∧
    (keyExists [("UsersGetHead", (⟨"unknown", "r"⟩ : TypeEntry))]
      (mkRouteNameEntry [("UsersGetHead", ⟨"unknown", "r"⟩)] routeUsersGetHead).types = true ∨
      (mkRouteNameEntry [("UsersGetHead", ⟨"unknown", "r"⟩)] routeUsersGetHead).types =
        "unknown") :=
  ⟨leaf_type_names_indexed.1 envUsers [routeUsersGetHead] "UsersGetHead"
    (by
      show "UsersGetHead" ∈ leafTypeNames
        [("users", DefValue.obj
          [("$url", DefValue.obj []),
           ("$get", DefValue.str "UsersGetHead"),
           ("$head", DefValue.str "UsersGetHead")])]
      simp [leafTypeNames, leafTypeNamesV]),
   leaf_type_names_indexed.2 [routeUsersGetHead] [("UsersGetHead", ⟨"unknown", "r"⟩)]
    (mkRouteNameEntry [("UsersGetHead", ⟨"unknown", "r"⟩)] routeUsersGetHead)
    (by
      show _ ∈ [mkRouteNameEntry [("UsersGetHead", ⟨"unknown", "r"⟩)] routeUsersGetHead]
      exact List.mem_singleton_self _)⟩

end Tuyau
